import Mathlib

/-!
Shallow embedding of `consensus/types/src/sync_committee_contribution.rs`
from the lighthouse repository, together with the external capabilities it
consumes (fixed-width bit-vector, BLS aggregate signature, SSZ encoding),
which live in sibling crates and are modelled from the specification.

Conventions:
- machine integers (`u64`, `usize`) are `Nat`; where the source relies on a
  64-bit range the theorems carry an explicit `< 2^64` bound;
- a fixed-width bit-vector of width `W` is a `List Bool` of length `W`
  (bit `i` is element `i`);
- a 32-byte hash and SSZ byte strings are `List Nat` of byte values;
- the opaque BLS aggregate signature is modelled, for aggregation semantics,
  as the multiset of the single signatures folded into it (group addition on
  distinct points is free, commutative and associative at this abstraction),
  and for the wire encoding as its fixed 96-byte compressed form;
- `&mut self` methods become pure state-passing functions: the method's
  receiver is the first argument and the updated value is returned, while
  the borrowed `other` argument is read-only by construction.
-/

namespace Lighthouse

/-- Modelled from the spec: the error enum of the bit-vector capability
(`ssz_types::Error`); the out-of-range variant records the offending index
and the vector's length. -/
inductive SszTypesError where
  | OutOfBounds (i : Nat) (len : Nat)
  | ExcessBits
  | InvalidByteCount (given : Nat) (expected : Nat)
deriving DecidableEq, Repr

/-- Modelled from the spec: the arithmetic error of the safe-arith capability. -/
inductive ArithError where
  | Overflow
  | DivisionByZero
deriving DecidableEq, Repr

/-- The `Error` enum of `sync_committee_contribution.rs`: a structured error
wrapping the container error, plus the two reserved kinds of the shared
taxonomy (`AlreadySigned`, `SubnetCountIsZero`), not raised by this core. -/
inductive Error where
  | SszTypesError (e : SszTypesError)
  | AlreadySigned (i : Nat)
  | SubnetCountIsZero (e : ArithError)
deriving DecidableEq, Repr

/-- Modelled from the spec: `new()` of the bit-vector capability — the
all-zeros vector of width `W`. -/
def BitVector.new (W : Nat) : List Bool := List.replicate W false

/-- Modelled from the spec: `set(i, v)` of the bit-vector capability —
updates bit `i`, failing with the out-of-range error when `i` is outside
`[0, len)`. -/
def BitVector.set (l : List Bool) (i : Nat) (v : Bool) :
    Except SszTypesError (List Bool) :=
  if i < l.length then .ok (l.set i v)
  else .error (.OutOfBounds i l.length)

/-- Modelled from the spec: `union(&other)` of the bit-vector capability —
bitwise OR at the same width. -/
def BitVector.union (a b : List Bool) : List Bool := List.zipWith or a b

/-- Modelled from the spec: the BLS aggregate signature for aggregation
semantics — the multiset of single signatures (opaque ids) folded in. -/
abbrev AggregateSignature := Multiset Nat

/-- Modelled from the spec: `AggregateSignature::from(&sig)` — the
aggregate-of-one built from a single signature. -/
def AggregateSignature.from_signature (s : Nat) : AggregateSignature := {s}

/-- Modelled from the spec: `add_assign_aggregate(&other)` — BLS aggregate
addition, written in state-passing style. -/
def AggregateSignature.add_assign_aggregate (a b : AggregateSignature) :
    AggregateSignature := a + b

/-- Modelled from the spec: the sync-committee-message shape
`slot`, `beacon_block_root`, single-signer `signature`. -/
structure SyncCommitteeMessage where
  slot : Nat
  beacon_block_root : List Nat
  signature : Nat
deriving DecidableEq, Repr

/-- The `SyncCommitteeContribution` struct, polymorphic in the opaque
signature representation (multiset facet for aggregation, byte facet for the
wire); the width of `aggregation_bits` is the value-level counterpart of the
type parameter `E::SyncSubcommitteeSize`. -/
structure SyncCommitteeContribution (Sig : Type) where
  slot : Nat
  beacon_block_root : List Nat
  subcommittee_index : Nat
  aggregation_bits : List Bool
  signature : Sig
deriving DecidableEq

/-- `SyncCommitteeContribution::from_message`: start from the all-zeros
width-`W` bit-vector, set bit `validator_sync_committee_index` (propagating
the container error through `Error::SszTypesError`), and assemble the
contribution with the message's slot and root, the given subcommittee index,
and the aggregate-of-one signature. -/
def SyncCommitteeContribution.from_message (W : Nat)
    (message : SyncCommitteeMessage) (subcommittee_index : Nat)
    (validator_sync_committee_index : Nat) :
    Except Error (SyncCommitteeContribution AggregateSignature) :=
  match BitVector.set (BitVector.new W) validator_sync_committee_index true with
  | .error e => .error (.SszTypesError e)
  | .ok bits =>
      .ok { slot := message.slot
          , beacon_block_root := message.beacon_block_root
          , subcommittee_index := subcommittee_index
          , aggregation_bits := bits
          , signature := AggregateSignature.from_signature message.signature }

/-- `SyncCommitteeContribution::aggregate` (release semantics: the
`debug_assert_eq!` checks compile away): replace the bits by the union and
fold the other signature into this one; `other` is only read. -/
def SyncCommitteeContribution.aggregate
    (self other : SyncCommitteeContribution AggregateSignature) :
    SyncCommitteeContribution AggregateSignature :=
  { self with
    aggregation_bits := BitVector.union self.aggregation_bits other.aggregation_bits
    signature := AggregateSignature.add_assign_aggregate self.signature other.signature }

/-- The `SyncContributionData` identity triple. -/
structure SyncContributionData where
  slot : Nat
  beacon_block_root : List Nat
  subcommittee_index : Nat
deriving DecidableEq, Repr

/-- `SyncContributionData::from_contribution`: project the identity triple. -/
def SyncContributionData.from_contribution {Sig : Type}
    (signing_data : SyncCommitteeContribution Sig) : SyncContributionData :=
  { slot := signing_data.slot
  , beacon_block_root := signing_data.beacon_block_root
  , subcommittee_index := signing_data.subcommittee_index }

/-- `SlotData::get_slot` for contributions. -/
def SyncCommitteeContribution.get_slot {Sig : Type}
    (c : SyncCommitteeContribution Sig) : Nat := c.slot

/-- `SlotData::get_slot` for the identity triple. -/
def SyncContributionData.get_slot (d : SyncContributionData) : Nat := d.slot

/-- Boolean disjointness of two bit-vectors: no position is set in both. -/
def BitVector.disjointb (a b : List Bool) : Bool :=
  (List.zipWith and a b).all (fun x => x = false)

/-- Modelled from the spec: SSZ encoding of a `u64` — 8 bytes little-endian. -/
def u64Bytes (n : Nat) : List Nat :=
  [ n % 256
  , n / 256 % 256
  , n / 65536 % 256
  , n / 16777216 % 256
  , n / 4294967296 % 256
  , n / 1099511627776 % 256
  , n / 281474976710656 % 256
  , n / 72057594037927936 % 256 ]

/-- Modelled from the spec: SSZ decoding of a little-endian byte string into
a natural number. -/
def u64OfBytes (l : List Nat) : Nat :=
  l.foldr (fun b acc => 256 * acc + b) 0

/-- Value of a byte given as its list of bits, LSB first. -/
def byteOfBits (bs : List Bool) : Nat :=
  bs.foldr (fun b acc => 2 * acc + cond b 1 0) 0

/-- The low `k` bits of a byte value, LSB first. -/
def bitsOfByte : Nat → Nat → List Bool
  | _, 0 => []
  | n, k + 1 => decide (n % 2 = 1) :: bitsOfByte (n / 2) k

/-- Modelled from the spec: SSZ encoding of a fixed-width bit-vector — bits
packed LSB-first into `ceil(W/8)` bytes, zero-padded in the final byte. -/
def packBits : List Bool → List Nat
  | [] => []
  | b :: bs => byteOfBits (b :: bs.take 7) :: packBits (bs.drop 7)
termination_by l => l.length
decreasing_by simp; omega

/-- Modelled from the spec: SSZ decoding of a fixed-width bit-vector — read
`n` bits LSB-first from the byte string. -/
def unpackBits : Nat → List Nat → List Bool
  | 0, _ => []
  | _ + 1, [] => []
  | n + 1, b :: rest => bitsOfByte b (min (n + 1) 8) ++ unpackBits (n + 1 - 8) rest
termination_by n _ => n

/-- Modelled from the spec: derived SSZ encoding of a contribution — all
fields fixed-length, encoded in declaration order with no offset table; the
signature field is its fixed 96-byte compressed form. -/
def SyncCommitteeContribution.as_ssz_bytes
    (c : SyncCommitteeContribution (List Nat)) : List Nat :=
  u64Bytes c.slot ++ c.beacon_block_root ++ u64Bytes c.subcommittee_index ++
    packBits c.aggregation_bits ++ c.signature

/-- Modelled from the spec: derived SSZ decoding of a contribution of width
`W` — fixed offsets, rejecting any byte string of the wrong total length. -/
def SyncCommitteeContribution.from_ssz_bytes (W : Nat) (bytes : List Nat) :
    Option (SyncCommitteeContribution (List Nat)) :=
  if bytes.length = 8 + 32 + 8 + (W + 7) / 8 + 96 then
    some { slot := u64OfBytes (bytes.take 8)
         , beacon_block_root := (bytes.drop 8).take 32
         , subcommittee_index := u64OfBytes ((bytes.drop 40).take 8)
         , aggregation_bits := unpackBits W ((bytes.drop 48).take ((W + 7) / 8))
         , signature := bytes.drop (48 + (W + 7) / 8) }
  else none

/-- Well-formedness of a wire-facet contribution of width `W`: the integer
fields are in `u64` range, the root is 32 bytes, the bit-vector has exactly
`W` bits and the signature its fixed 96 bytes. -/
def SyncCommitteeContribution.wellFormed (W : Nat)
    (c : SyncCommitteeContribution (List Nat)) : Prop :=
  c.slot < 2 ^ 64 ∧ c.beacon_block_root.length = 32 ∧
    c.subcommittee_index < 2 ^ 64 ∧ c.aggregation_bits.length = W ∧
    c.signature.length = 96

instance (W : Nat) (c : SyncCommitteeContribution (List Nat)) :
    Decidable (SyncCommitteeContribution.wellFormed W c) := by
  unfold SyncCommitteeContribution.wellFormed; infer_instance

/-- Modelled from the spec: derived SSZ encoding of the identity triple —
`slot`, `beacon_block_root`, `subcommittee_index` in declaration order. -/
def SyncContributionData.as_ssz_bytes (d : SyncContributionData) : List Nat :=
  u64Bytes d.slot ++ d.beacon_block_root ++ u64Bytes d.subcommittee_index

/-- Modelled from the spec: derived SSZ decoding of the identity triple. -/
def SyncContributionData.from_ssz_bytes (bytes : List Nat) :
    Option SyncContributionData :=
  if bytes.length = 48 then
    some { slot := u64OfBytes (bytes.take 8)
         , beacon_block_root := (bytes.drop 8).take 32
         , subcommittee_index := u64OfBytes ((bytes.drop 40).take 8) }
  else none

/-- Well-formedness of an identity triple: `u64` ranges and a 32-byte root. -/
def SyncContributionData.wellFormed (d : SyncContributionData) : Prop :=
  d.slot < 2 ^ 64 ∧ d.beacon_block_root.length = 32 ∧
    d.subcommittee_index < 2 ^ 64

instance (d : SyncContributionData) :
    Decidable (SyncContributionData.wellFormed d) := by
  unfold SyncContributionData.wellFormed; infer_instance

/-! ### Helper lemmas about the bit-vector capability -/

theorem getD_zipWith_or :
    ∀ (a b : List Bool), a.length = b.length →
      ∀ j, (List.zipWith or a b).getD j false =
        (a.getD j false || b.getD j false)
  | [], [], _, _ => by simp
  | _ :: _, _ :: _, _, 0 => by simp
  | x :: a, y :: b, h, j + 1 => by
      simpa using getD_zipWith_or a b (by simpa using h) j

theorem zipWith_or_comm :
    ∀ (a b : List Bool), List.zipWith or a b = List.zipWith or b a
  | [], b => by simp
  | _ :: _, [] => by simp
  | x :: a, y :: b => by
      simp only [List.zipWith]
      rw [Bool.or_comm, zipWith_or_comm a b]

theorem zipWith_or_assoc :
    ∀ (a b c : List Bool),
      List.zipWith or (List.zipWith or a b) c =
        List.zipWith or a (List.zipWith or b c)
  | [], _, _ => by simp
  | _ :: _, [], _ => by simp
  | _ :: _, _ :: _, [] => by simp
  | x :: a, y :: b, z :: c => by
      simp only [List.zipWith]
      rw [Bool.or_assoc, zipWith_or_assoc a b c]

theorem zipWith_or_self : ∀ a : List Bool, List.zipWith or a a = a
  | [] => rfl
  | x :: a => by simp only [List.zipWith]; rw [Bool.or_self, zipWith_or_self a]

theorem getD_replicate_set (W i j : Nat) (hj : j < W) :
    ((List.replicate W false).set i true).getD j false = decide (j = i) := by
  have hl : j < ((List.replicate W false).set i true).length := by
    simpa using hj
  rw [List.getD_eq_getElem _ _ hl, List.getElem_set]
  split
  · simp [*]
  · rw [List.getElem_replicate]
    simp; omega

/-! ### Helper lemmas about the SSZ byte encodings -/

theorem u64Bytes_length (n : Nat) : (u64Bytes n).length = 8 := rfl

theorem u64OfBytes_u64Bytes (n : Nat) (h : n < 2 ^ 64) :
    u64OfBytes (u64Bytes n) = n := by
  simp only [u64Bytes, u64OfBytes, List.foldr]
  omega

theorem bitsOfByte_byteOfBits :
    ∀ bs : List Bool, bitsOfByte (byteOfBits bs) bs.length = bs
  | [] => rfl
  | b :: t => by
    have hb : byteOfBits (b :: t) = 2 * byteOfBits t + cond b 1 0 := rfl
    have hmod : decide ((2 * byteOfBits t + cond b 1 0) % 2 = 1) = b := by
      cases b <;> (simp; try omega)
    have hdiv : (2 * byteOfBits t + cond b 1 0) / 2 = byteOfBits t := by
      cases b <;> (simp; try omega)
    simp only [List.length_cons, hb, bitsOfByte, hmod, hdiv,
      bitsOfByte_byteOfBits t]

theorem packBits_length :
    ∀ bs : List Bool, (packBits bs).length = (bs.length + 7) / 8
  | [] => by rw [packBits]; rfl
  | b :: t => by
    rw [packBits]
    have ih := packBits_length (t.drop 7)
    simp only [List.length_cons, List.length_drop, ih] at *
    omega
termination_by bs => bs.length
decreasing_by simp; omega

theorem unpackBits_packBits :
    ∀ bs : List Bool, unpackBits bs.length (packBits bs) = bs
  | [] => by rw [packBits]; rw [unpackBits.eq_def]; rfl
  | b :: t => by
    rw [packBits, List.length_cons, unpackBits]
    have h1 : min (t.length + 1) 8 = (b :: t.take 7).length := by
      simp only [List.length_cons, List.length_take]; omega
    have h2 : t.length + 1 - 8 = (t.drop 7).length := by
      simp only [List.length_drop]; omega
    rw [h1, bitsOfByte_byteOfBits (b :: t.take 7), h2,
      unpackBits_packBits (t.drop 7)]
    simp [List.take_append_drop]
termination_by bs => bs.length
decreasing_by simp; omega

/-! ### Concrete example values used by the witnesses -/

/-- Example message: slot 42, root of 32 bytes 0x11, signature id 7. -/
def mEx : SyncCommitteeMessage :=
  { slot := 42, beacon_block_root := List.replicate 32 17, signature := 7 }

/-- Example 32-byte root. -/
def rootEx : List Nat := List.replicate 32 17

/-- Example contribution with bit 5 set (width 8). -/
def aEx : SyncCommitteeContribution AggregateSignature :=
  { slot := 42, beacon_block_root := rootEx, subcommittee_index := 3
  , aggregation_bits := [false, false, false, false, false, true, false, false]
  , signature := AggregateSignature.from_signature 7 }

/-- Example contribution with bit 1 set (width 8), same identity triple. -/
def bEx : SyncCommitteeContribution AggregateSignature :=
  { slot := 42, beacon_block_root := rootEx, subcommittee_index := 3
  , aggregation_bits := [false, true, false, false, false, false, false, false]
  , signature := AggregateSignature.from_signature 8 }

/-- Example contribution with bit 7 set (width 8), same identity triple. -/
def cEx : SyncCommitteeContribution AggregateSignature :=
  { slot := 42, beacon_block_root := rootEx, subcommittee_index := 3
  , aggregation_bits := [false, false, false, false, false, false, false, true]
  , signature := AggregateSignature.from_signature 9 }

/-! ### Claim theorems -/

/-- C1: for every message `m`, `u64` subcommittee index `s` and index
`i < W`, `from_message m s i` succeeds with a contribution whose
aggregation bits have exactly bit `i` set, whose signature is the
aggregate-of-one built from `m.signature`, and whose slot, root and
subcommittee index equal `m.slot`, `m.beacon_block_root` and `s`. -/
theorem from_message_construction (W : Nat) (m : SyncCommitteeMessage)
    (s i : Nat) (h : i < W) :
    ∃ c, SyncCommitteeContribution.from_message W m s i = .ok c ∧
      c.slot = m.slot ∧ c.beacon_block_root = m.beacon_block_root ∧
      c.subcommittee_index = s ∧
      c.signature = AggregateSignature.from_signature m.signature ∧
      c.aggregation_bits.length = W ∧
      ∀ j, j < W → (c.aggregation_bits.getD j false = true ↔ j = i) := by
  have hset : BitVector.set (BitVector.new W) i true =
      .ok ((List.replicate W false).set i true) := by
    simp [BitVector.set, BitVector.new, h]
  unfold SyncCommitteeContribution.from_message
  rw [hset]
  refine ⟨_, rfl, rfl, rfl, rfl, rfl, ?_, ?_⟩
  · simp
  · intro j hj
    rw [getD_replicate_set W i j hj]
    simp

/-- Witness for C1: `from_message` at width 8, subcommittee 3, index 5. -/
theorem from_message_construction_witness :
    ∃ c, SyncCommitteeContribution.from_message 8 mEx 3 5 = .ok c ∧
      c.slot = mEx.slot ∧ c.beacon_block_root = mEx.beacon_block_root ∧
      c.subcommittee_index = 3 ∧
      c.signature = AggregateSignature.from_signature mEx.signature ∧
      c.aggregation_bits.length = 8 ∧
      ∀ j, j < 8 → (c.aggregation_bits.getD j false = true ↔ j = 5) :=
  from_message_construction 8 mEx 3 5 (by decide)

/-- C2: `from_message m s i` fails exactly when `i ≥ W`, with the
`SszTypesError` variant wrapping the container's out-of-range error (and no
contribution); for `i < W` it always succeeds, and there is no other
failure mode. -/
theorem from_message_error_iff (W : Nat) (m : SyncCommitteeMessage)
    (s i : Nat) :
    (W ≤ i → SyncCommitteeContribution.from_message W m s i =
        .error (.SszTypesError (.OutOfBounds i W))) ∧
    (i < W → ∃ c, SyncCommitteeContribution.from_message W m s i = .ok c) ∧
    (∀ e, SyncCommitteeContribution.from_message W m s i = .error e →
        e = .SszTypesError (.OutOfBounds i W) ∧ W ≤ i) := by
  by_cases h : i < W
  · have hset : BitVector.set (BitVector.new W) i true =
        .ok ((List.replicate W false).set i true) := by
      simp [BitVector.set, BitVector.new, h]
    refine ⟨fun hW => absurd hW (by omega), fun _ => ?_, fun e he => ?_⟩
    · exact ⟨_, by unfold SyncCommitteeContribution.from_message; rw [hset]⟩
    · rw [SyncCommitteeContribution.from_message, hset] at he
      exact absurd he (by simp)
  · have hset : BitVector.set (BitVector.new W) i true =
        .error (.OutOfBounds i W) := by
      simp [BitVector.set, BitVector.new]
      omega
    have herr : SyncCommitteeContribution.from_message W m s i =
        .error (.SszTypesError (.OutOfBounds i W)) := by
      rw [SyncCommitteeContribution.from_message, hset]
    refine ⟨fun _ => herr, fun hlt => absurd hlt h, fun e he => ?_⟩
    rw [herr] at he
    cases he
    exact ⟨rfl, by omega⟩

/-- Witness for C2: at width 8, index 9 fails with the out-of-range error
and index 5 succeeds. -/
theorem from_message_error_iff_witness :
    SyncCommitteeContribution.from_message 8 mEx 3 9 =
      .error (.SszTypesError (.OutOfBounds 9 8)) ∧
    (∃ c, SyncCommitteeContribution.from_message 8 mEx 3 5 = .ok c) :=
  ⟨(from_message_error_iff 8 mEx 3 9).1 (by decide),
   (from_message_error_iff 8 mEx 3 5).2.1 (by decide)⟩

/-- C3: for same-width contributions with equal identity triples and
disjoint bit-sets, after `a.aggregate b` the bits of the result are the
pointwise OR (set-union) of the pre-state bits of `a` and of `b`, at the
same width. -/
theorem aggregate_bits_union
    (a b : SyncCommitteeContribution AggregateSignature)
    (hW : a.aggregation_bits.length = b.aggregation_bits.length)
    (_hslot : a.slot = b.slot)
    (_hroot : a.beacon_block_root = b.beacon_block_root)
    (_hidx : a.subcommittee_index = b.subcommittee_index)
    (_hdisj : BitVector.disjointb a.aggregation_bits b.aggregation_bits = true) :
    (a.aggregate b).aggregation_bits.length = a.aggregation_bits.length ∧
    ∀ j, (a.aggregate b).aggregation_bits.getD j false =
      (a.aggregation_bits.getD j false || b.aggregation_bits.getD j false) := by
  constructor
  · simp [SyncCommitteeContribution.aggregate, BitVector.union,
      List.length_zipWith, hW]
  · intro j
    simp only [SyncCommitteeContribution.aggregate, BitVector.union]
    exact getD_zipWith_or _ _ hW j

/-- Witness for C3: bit 5 united with bit 1 at width 8. -/
theorem aggregate_bits_union_witness :
    (aEx.aggregate bEx).aggregation_bits.length = aEx.aggregation_bits.length ∧
    ∀ j, (aEx.aggregate bEx).aggregation_bits.getD j false =
      (aEx.aggregation_bits.getD j false || bEx.aggregation_bits.getD j false) :=
  aggregate_bits_union aEx bEx (by decide) (by decide) (by decide) (by decide)
    (by decide)

/-- C4: `aggregate` modifies only the bits and the signature: for
contributions satisfying the preconditions, the slot, root and subcommittee
index of `a` are unchanged after `a.aggregate b` (the embedding passes
`other` by read-only reference, so `b` is unchanged by construction). -/
theorem aggregate_preserves_identity
    (a b : SyncCommitteeContribution AggregateSignature)
    (_hW : a.aggregation_bits.length = b.aggregation_bits.length)
    (_hslot : a.slot = b.slot)
    (_hroot : a.beacon_block_root = b.beacon_block_root)
    (_hidx : a.subcommittee_index = b.subcommittee_index)
    (_hdisj : BitVector.disjointb a.aggregation_bits b.aggregation_bits = true) :
    (a.aggregate b).slot = a.slot ∧
    (a.aggregate b).beacon_block_root = a.beacon_block_root ∧
    (a.aggregate b).subcommittee_index = a.subcommittee_index :=
  ⟨rfl, rfl, rfl⟩

/-- Witness for C4 at the example contributions with bits 5 and 1. -/
theorem aggregate_preserves_identity_witness :
    (aEx.aggregate bEx).slot = aEx.slot ∧
    (aEx.aggregate bEx).beacon_block_root = aEx.beacon_block_root ∧
    (aEx.aggregate bEx).subcommittee_index = aEx.subcommittee_index :=
  aggregate_preserves_identity aEx bEx (by decide) (by decide) (by decide)
    (by decide) (by decide)

/-- C5: under equal identity triples and pairwise disjointness, folding
three contributions by `aggregate` in any order yields the same
aggregation bits and the same signature aggregate (indeed the same
contribution). -/
theorem aggregate_comm_assoc
    (a b c : SyncCommitteeContribution AggregateSignature)
    (_hWab : a.aggregation_bits.length = b.aggregation_bits.length)
    (_hWac : a.aggregation_bits.length = c.aggregation_bits.length)
    (_hab : a.slot = b.slot ∧ a.beacon_block_root = b.beacon_block_root ∧
      a.subcommittee_index = b.subcommittee_index)
    (_hac : a.slot = c.slot ∧ a.beacon_block_root = c.beacon_block_root ∧
      a.subcommittee_index = c.subcommittee_index)
    (_hdab : BitVector.disjointb a.aggregation_bits b.aggregation_bits = true)
    (_hdac : BitVector.disjointb a.aggregation_bits c.aggregation_bits = true)
    (_hdbc : BitVector.disjointb b.aggregation_bits c.aggregation_bits = true) :
    ((a.aggregate b).aggregate c = (a.aggregate c).aggregate b) ∧
    ((a.aggregate b).aggregate c = a.aggregate (b.aggregate c)) := by
  constructor
  · simp only [SyncCommitteeContribution.aggregate, BitVector.union,
      AggregateSignature.add_assign_aggregate, SyncCommitteeContribution.mk.injEq]
    refine ⟨trivial, trivial, trivial, ?_, ?_⟩
    · rw [zipWith_or_assoc, zipWith_or_assoc,
        zipWith_or_comm c.aggregation_bits b.aggregation_bits]
    · rw [add_assoc, add_assoc, add_comm c.signature b.signature]
  · simp only [SyncCommitteeContribution.aggregate, BitVector.union,
      AggregateSignature.add_assign_aggregate, SyncCommitteeContribution.mk.injEq]
    exact ⟨trivial, trivial, trivial, zipWith_or_assoc _ _ _, add_assoc _ _ _⟩

/-- Witness for C5: contributions with bit sets restricted to positions 5, 1
and 7 at width 8 fold to the same value in every order. -/
theorem aggregate_comm_assoc_witness :
    ((aEx.aggregate bEx).aggregate cEx = (aEx.aggregate cEx).aggregate bEx) ∧
    ((aEx.aggregate bEx).aggregate cEx = aEx.aggregate (bEx.aggregate cEx)) :=
  aggregate_comm_assoc aEx bEx cEx (by decide) (by decide)
    ⟨by decide, by decide, by decide⟩ ⟨by decide, by decide, by decide⟩
    (by decide) (by decide) (by decide)

/-- C8: `aggregate` is a total operation that returns no error for any pair
of contributions — the release build carries no check, so even when the
identity triples differ it silently proceeds with the bit-union and the
signature addition; the second conjunct evaluates it on a mismatched pair. -/
theorem aggregate_total :
    (∀ a b : SyncCommitteeContribution AggregateSignature,
      a.aggregate b =
        { slot := a.slot
        , beacon_block_root := a.beacon_block_root
        , subcommittee_index := a.subcommittee_index
        , aggregation_bits := BitVector.union a.aggregation_bits b.aggregation_bits
        , signature :=
            AggregateSignature.add_assign_aggregate a.signature b.signature }) ∧
    SyncCommitteeContribution.aggregate
        { slot := 1, beacon_block_root := [0], subcommittee_index := 0
        , aggregation_bits := [true, false]
        , signature := AggregateSignature.from_signature 1 }
        { slot := 2, beacon_block_root := [5], subcommittee_index := 9
        , aggregation_bits := [false, true]
        , signature := AggregateSignature.from_signature 2 } =
      { slot := 1, beacon_block_root := [0], subcommittee_index := 0
      , aggregation_bits := [true, true]
      , signature := AggregateSignature.from_signature 1 +
          AggregateSignature.from_signature 2 } :=
  ⟨fun _ _ => rfl, by decide⟩

/-- C9: `SyncContributionData.from_contribution` is total and infallible,
returning exactly the identity triple of its (unchanged) argument, for any
signature representation. -/
theorem from_contribution_projects {Sig : Type}
    (c : SyncCommitteeContribution Sig) :
    SyncContributionData.from_contribution c =
      { slot := c.slot
      , beacon_block_root := c.beacon_block_root
      , subcommittee_index := c.subcommittee_index } := rfl

/-- C10: the bit update of `aggregate` is the unconditional set-union — no
disjointness check of any kind: for any same-width pair, even overlapping,
the resulting bits are the pointwise OR; aggregating a contribution with a
structural copy of itself leaves the bits unchanged while the signature
still accumulates the duplicate contribution. -/
theorem aggregate_union_unconditional
    (a b : SyncCommitteeContribution AggregateSignature)
    (hW : a.aggregation_bits.length = b.aggregation_bits.length) :
    (∀ j, (a.aggregate b).aggregation_bits.getD j false =
      (a.aggregation_bits.getD j false || b.aggregation_bits.getD j false)) ∧
    (a.aggregate a).aggregation_bits = a.aggregation_bits ∧
    (a.aggregate a).signature = a.signature + a.signature ∧
    (a.signature ≠ 0 → (a.aggregate a).signature ≠ a.signature) := by
  refine ⟨?_, ?_, rfl, ?_⟩
  · intro j
    simp only [SyncCommitteeContribution.aggregate, BitVector.union]
    exact getD_zipWith_or _ _ hW j
  · simp only [SyncCommitteeContribution.aggregate, BitVector.union]
    exact zipWith_or_self a.aggregation_bits
  · intro hne hdup
    simp only [SyncCommitteeContribution.aggregate,
      AggregateSignature.add_assign_aggregate] at hdup
    exact hne (by simpa using hdup)

/-- Witness for C10: a contribution aggregated with itself (overlapping bit
sets) at width 8. -/
theorem aggregate_union_unconditional_witness :
    (∀ j, (aEx.aggregate aEx).aggregation_bits.getD j false =
      (aEx.aggregation_bits.getD j false || aEx.aggregation_bits.getD j false)) ∧
    (aEx.aggregate aEx).aggregation_bits = aEx.aggregation_bits ∧
    (aEx.aggregate aEx).signature = aEx.signature + aEx.signature ∧
    (aEx.signature ≠ 0 → (aEx.aggregate aEx).signature ≠ aEx.signature) :=
  aggregate_union_unconditional aEx aEx rfl


/-! ### SSZ claims -/

theorem ssz_split (A R B P S : List Nat) (hA : A.length = 8)
    (hR : R.length = 32) (hB : B.length = 8) :
    ((A ++ R ++ B ++ P ++ S).take 8 = A) ∧
    (((A ++ R ++ B ++ P ++ S).drop 8).take 32 = R) ∧
    (((A ++ R ++ B ++ P ++ S).drop 40).take 8 = B) ∧
    (((A ++ R ++ B ++ P ++ S).drop 48).take P.length = P) ∧
    ((A ++ R ++ B ++ P ++ S).drop (48 + P.length) = S) := by
  have hs : A ++ R ++ B ++ P ++ S = A ++ (R ++ (B ++ (P ++ S))) := by
    simp only [List.append_assoc]
  have d8 : (A ++ (R ++ (B ++ (P ++ S)))).drop 8 = R ++ (B ++ (P ++ S)) :=
    List.drop_left' hA
  have d40 : (A ++ (R ++ (B ++ (P ++ S)))).drop 40 = B ++ (P ++ S) := by
    rw [show (40 : Nat) = 8 + 32 from rfl, ← List.drop_drop, d8]
    exact List.drop_left' hR
  have d48 : (A ++ (R ++ (B ++ (P ++ S)))).drop 48 = P ++ S := by
    rw [show (48 : Nat) = 40 + 8 from rfl, ← List.drop_drop, d40]
    exact List.drop_left' hB
  refine ⟨?_, ?_, ?_, ?_, ?_⟩
  · rw [hs]; exact List.take_left' hA
  · rw [hs, d8]; exact List.take_left' hR
  · rw [hs, d40]; exact List.take_left' hB
  · rw [hs, d48]; exact List.take_left' rfl
  · rw [hs, ← List.drop_drop, d48]; exact List.drop_left' rfl

/-- Concrete wire-facet contribution (width 8, 96-byte signature). -/
def cWireEx : SyncCommitteeContribution (List Nat) :=
  { slot := 42, beacon_block_root := rootEx, subcommittee_index := 3
  , aggregation_bits := [false, false, false, false, false, true, false, false]
  , signature := List.replicate 96 9 }

/-- Concrete identity triple. -/
def dEx : SyncContributionData :=
  { slot := 42, beacon_block_root := rootEx, subcommittee_index := 3 }

/-- C6: the SSZ encoding round-trips — decoding the encoding of any
well-formed `SyncCommitteeContribution` of width `W` yields a structurally
equal value, and likewise for `SyncContributionData`. -/
theorem ssz_roundtrip :
    (∀ (W : Nat) (c : SyncCommitteeContribution (List Nat)),
        c.wellFormed W →
        SyncCommitteeContribution.from_ssz_bytes W c.as_ssz_bytes = some c) ∧
    (∀ d : SyncContributionData, d.wellFormed →
        SyncContributionData.from_ssz_bytes d.as_ssz_bytes = some d) := by
  constructor
  · intro W c hwf
    obtain ⟨h1, h2, h3, h4, h5⟩ := hwf
    have hP : (packBits c.aggregation_bits).length = (W + 7) / 8 := by
      rw [packBits_length, h4]
    have hlen : c.as_ssz_bytes.length = 8 + 32 + 8 + (W + 7) / 8 + 96 := by
      simp only [SyncCommitteeContribution.as_ssz_bytes, List.length_append,
        u64Bytes_length, h2, h5, hP]
    obtain ⟨e1, e2, e3, e4, e5⟩ := ssz_split (u64Bytes c.slot)
      c.beacon_block_root (u64Bytes c.subcommittee_index)
      (packBits c.aggregation_bits) c.signature (u64Bytes_length _) h2
      (u64Bytes_length _)
    rw [SyncCommitteeContribution.from_ssz_bytes, if_pos hlen, ← hP]
    simp only [SyncCommitteeContribution.as_ssz_bytes]
    rw [e1, e2, e3, e4, e5, u64OfBytes_u64Bytes _ h1, u64OfBytes_u64Bytes _ h3,
      show unpackBits W (packBits c.aggregation_bits) = c.aggregation_bits from
        by rw [← h4]; exact unpackBits_packBits _]
  · intro d hwf
    obtain ⟨h1, h2, h3⟩ := hwf
    have hlen : d.as_ssz_bytes.length = 48 := by
      simp only [SyncContributionData.as_ssz_bytes, List.length_append,
        u64Bytes_length, h2]
    have hs : u64Bytes d.slot ++ d.beacon_block_root ++
        u64Bytes d.subcommittee_index =
        u64Bytes d.slot ++ (d.beacon_block_root ++
          u64Bytes d.subcommittee_index) := by
      simp only [List.append_assoc]
    have d8 : (u64Bytes d.slot ++ (d.beacon_block_root ++
        u64Bytes d.subcommittee_index)).drop 8 =
        d.beacon_block_root ++ u64Bytes d.subcommittee_index :=
      List.drop_left' (u64Bytes_length _)
    have d40 : (u64Bytes d.slot ++ (d.beacon_block_root ++
        u64Bytes d.subcommittee_index)).drop 40 =
        u64Bytes d.subcommittee_index := by
      rw [show (40 : Nat) = 8 + 32 from rfl, ← List.drop_drop, d8]
      exact List.drop_left' h2
    have t8 : (u64Bytes d.subcommittee_index).take 8 =
        u64Bytes d.subcommittee_index := by
      rw [show (8 : Nat) = (u64Bytes d.subcommittee_index).length from
        (u64Bytes_length _).symm]
      exact List.take_length _
    rw [SyncContributionData.from_ssz_bytes, if_pos hlen]
    simp only [SyncContributionData.as_ssz_bytes]
    rw [hs, List.take_left' (u64Bytes_length _), d8, List.take_left' h2, d40,
      t8, u64OfBytes_u64Bytes _ h1, u64OfBytes_u64Bytes _ h3]

/-- Witness for C6: round-trip at width 8 on concrete values. -/
theorem ssz_roundtrip_witness :
    SyncCommitteeContribution.from_ssz_bytes 8 cWireEx.as_ssz_bytes =
      some cWireEx ∧
    SyncContributionData.from_ssz_bytes dEx.as_ssz_bytes = some dEx :=
  ⟨ssz_roundtrip.1 8 cWireEx (by decide), ssz_roundtrip.2 dEx (by decide)⟩

/-- C7: the SSZ encoding of a width-`W` contribution has the fixed byte
length `8 + 32 + 8 + ceil(W/8) + 96`, and lays the five fields out in
declaration order by plain concatenation, with no offset table. -/
theorem ssz_encoding_length (W : Nat)
    (c : SyncCommitteeContribution (List Nat)) (h : c.wellFormed W) :
    c.as_ssz_bytes.length = 8 + 32 + 8 + (W + 7) / 8 + 96 ∧
    c.as_ssz_bytes =
      u64Bytes c.slot ++ c.beacon_block_root ++ u64Bytes c.subcommittee_index ++
        packBits c.aggregation_bits ++ c.signature := by
  obtain ⟨h1, h2, h3, h4, h5⟩ := h
  refine ⟨?_, rfl⟩
  simp only [SyncCommitteeContribution.as_ssz_bytes, List.length_append,
    u64Bytes_length, h2, h5, packBits_length, h4]

/-- Witness for C7: at width 8 with a 96-byte signature the encoding is
exactly 145 bytes. -/
theorem ssz_encoding_length_witness :
    (cWireEx.as_ssz_bytes.length = 8 + 32 + 8 + (8 + 7) / 8 + 96 ∧
      cWireEx.as_ssz_bytes =
        u64Bytes cWireEx.slot ++ cWireEx.beacon_block_root ++
          u64Bytes cWireEx.subcommittee_index ++
          packBits cWireEx.aggregation_bits ++ cWireEx.signature) ∧
    cWireEx.as_ssz_bytes.length = 145 :=
  ⟨ssz_encoding_length 8 cWireEx (by decide),
   by simp [cWireEx, rootEx, SyncCommitteeContribution.as_ssz_bytes,
     packBits_length, u64Bytes_length]⟩

end Lighthouse
